import Mathlib

/-!
# Verification of the `trufnetwork_sdk_py` client facade

Shallow embedding of `src/trufnetwork_sdk_py/client.py` and
`src/trufnetwork_sdk_py/utils.py`.

The Python code is a thin wrapper around an opaque native client
(`trufnetwork_sdk_c_bindings.exports`, aliased `truf_sdk`).  We model the
native client as an environment `Env` of response oracles: each underlying
operation either returns a result or raises (modelled with `Except String`,
the `String` standing for the raised foreign exception, carried by value).
Every wrapper method is embedded as a function returning the ordered trace
of underlying calls it performed (`List Call`) together with its outcome
(`Except PyErr α`); a call that raises is still recorded in the trace (it
was invoked) and nothing is recorded after it.

Python-specific semantics embedded here:
* scalar runtime types: `isinstance(x, str)` / `isinstance(x, float)` /
  `isinstance(x, int)` — in Python an `int` is *not* a `float`;
* `zip(*args)` transposition: truncates to the shortest row, and `zip()`
  of an empty argument list yields nothing (`pyZip`);
* `record['k']` dict access raising `KeyError` (`pyGet` + `omap`);
* `dict(record.items())` construction: insertion order, later value wins
  on a duplicate key (`pyDict`).

Float payloads are modelled as rationals: the wrapper never computes with
the numeric value, it only dispatches on the runtime type and forwards the
value unchanged, so the carrier is irrelevant.
-/

set_option autoImplicit false

namespace TNPy

/-- A Python scalar as it occurs in argument matrices and records:
exactly one of `str`, `float`, `int` (the `Union[str, float, int]` of the
source's annotations). -/
inductive Scalar where
  | str (v : String)
  | float (v : Rat)
  | int (v : Int)
  deriving DecidableEq

/-- `isinstance(x, str)`. -/
def Scalar.isStr : Scalar → Bool
  | .str _ => true
  | _ => false

/-- `isinstance(x, float)`.  In Python an `int` is not a `float`. -/
def Scalar.isFloat : Scalar → Bool
  | .float _ => true
  | _ => false

/-- `isinstance(x, int)` (for values that are not also `float`). -/
def Scalar.isInt : Scalar → Bool
  | .int _ => true
  | _ => false

/-- A typed variadic argument group as built by
`truf_sdk.ArgsFromStrings(go.Slice_string(...))` /
`truf_sdk.ArgsFromFloats(go.Slice_float64(...))`. -/
inductive TypedArgs where
  | strings (l : List String)
  | floats (l : List Rat)
  deriving DecidableEq

/-- A Python dict of a record, modelled as its association list
(key/value pairs in insertion order). -/
abbrev PyDict := List (String × Scalar)

/-- One invocation of the underlying native client, with the marshalled
arguments the wrapper passed to it. -/
inductive Call where
  | deployStream (stream_id : String) (stream_type : Nat)
  | waitForTx (tx_hash : String)
  | streamExists (stream_id : String) (data_provider : String)
  | initStream (stream_id : String)
  | insertRecords (stream_id : String) (dates : List Scalar) (values : List Scalar)
  | getRecords (stream_id data_provider date_from date_to frozen_at base_date : String)
  | executeProcedure (stream_id : String) (procedure : String) (args : List TypedArgs)
  deriving DecidableEq

/-- A Python exception as observable from this layer:
either one of the two locally raised errors
(`ValueError(f"Unsupported argument type: {arg}")` carrying the offending
column, `KeyError(k)` from a dict access), or an exception raised by the
underlying native client, carried unmodified. -/
inductive PyErr where
  | valueError (bad_column : List Scalar)
  | keyError (key : String)
  | underlying (e : String)
  deriving DecidableEq

/-- The opaque native client: one response oracle per underlying operation.
Each oracle either returns a value or raises (`Except.error e`, the payload
`e` standing for the raised foreign exception object). -/
structure Env where
  deployStreamResult : String → Nat → Except String String
  waitForTxResult : String → Except String Unit
  streamExistsResult : String → String → Except String Bool
  initStreamResult : String → Except String String
  insertRecordsResult : String → List Scalar → List Scalar → Except String String
  getRecordsResult : String → String → String → String → String → String →
      Except String (List (List (String × Scalar)))
  executeProcedureResult : String → String → List TypedArgs → Except String String

/-- `truf_sdk.StreamTypePrimitive`, the default `stream_type`
(an opaque enumerated constant of the native binding). -/
def StreamTypePrimitive : Nat := 0

/-- Python dict lookup `d[k]`: the value stored at `k`, or `none`
(a `KeyError`) when `k` is absent. -/
def pyGet (d : PyDict) (k : String) : Option Scalar :=
  (List.find? (fun p => p.1 = k) d).map Prod.snd

/-- A Python list comprehension whose body may raise: evaluates `f` left to
right, stopping at the first failure. -/
def omap {α β : Type} (f : α → Option β) : List α → Option (List β)
  | [] => some []
  | a :: as =>
    match f a with
    | none => none
    | some b => (omap f as).map (fun bs => b :: bs)

/-- One step of the `zip` iterator protocol over a list of iterators:
`next()` on every row at once — the heads of all rows and the remaining
tails, or `none` as soon as some row is exhausted. -/
def nexts {α : Type} : List (List α) → Option (List α × List (List α))
  | [] => some ([], [])
  | [] :: _ => none
  | (a :: as) :: rest =>
    match nexts rest with
    | none => none
    | some (hs, ts) => some (a :: hs, as :: ts)

/-- `zip` over a nonempty list of rows `r :: rs`, by repeated `nexts`;
structural recursion on the first row (each step consumes one element of
every row). -/
def pyZipCore {α : Type} : List α → List (List α) → List (List α)
  | [], _ => []
  | a :: as, rs =>
    match nexts rs with
    | none => []
    | some (hs, ts) => (a :: hs) :: pyZipCore as ts

/-- `list(map(list, zip(*args)))`: the transposition of `execute_procedure`.
`zip()` of no iterables (empty `args`) yields nothing; otherwise tuples are
produced while every row still has an element, so the output is truncated to
the shortest row. -/
def pyZip {α : Type} : List (List α) → List (List α)
  | [] => []
  | r :: rs => pyZipCore r rs

/-- The per-column type dispatch of `execute_procedure`:
`if all(isinstance(item, str) ...)` → `ArgsFromStrings`,
`elif all(isinstance(item, float) ...)` → `ArgsFromFloats`,
else the column is unsupported (`none`, a `ValueError`). -/
def classifyColumn (col : List Scalar) : Option TypedArgs :=
  if col.all Scalar.isStr then
    some (.strings (col.filterMap (fun s => match s with | .str v => some v | _ => none)))
  else if col.all Scalar.isFloat then
    some (.floats (col.filterMap (fun s => match s with | .float v => some v | _ => none)))
  else
    none

/-- The `for arg in transposed_args` loop of `execute_procedure`: classify
each column in order, raising at the first unsupported column (the loop
body appends to `variadic_args` until it raises). -/
def classifyColumns : List (List Scalar) → Except (List Scalar) (List TypedArgs)
  | [] => .ok []
  | c :: cs =>
    match classifyColumn c with
    | none => .error c
    | some t =>
      match classifyColumns cs with
      | .error b => .error b
      | .ok ts => .ok (t :: ts)

/-- Insertion of one pair into a Python dict under construction: overwrite
in place when the key is present, append otherwise. -/
def dictInsert (d : List (String × Scalar)) (k : String) (v : Scalar) :
    List (String × Scalar) :=
  if d.any (fun p => p.1 = k) then
    d.map (fun p => if p.1 = k then (k, v) else p)
  else
    d ++ [(k, v)]

/-- `dict(items)`: build a dict from a pair sequence in order, later values
winning on duplicate keys. -/
def pyDict (items : List (String × Scalar)) : List (String × Scalar) :=
  items.foldl (fun d p => dictInsert d p.1 p.2) []

/-- The trailing `if wait: truf_sdk.WaitForTx(self.client, tx); return tx`
shared by every mutating method: the extra trace and the outcome. -/
def waitTail (env : Env) (tx : String) (wait : Bool) : List Call × Except PyErr String :=
  if wait then
    match env.waitForTxResult tx with
    | .error e => ([.waitForTx tx], .error (.underlying e))
    | .ok _ => ([.waitForTx tx], .ok tx)
  else
    ([], .ok tx)

/-- `TNClient.deploy_stream`. -/
def deploy_stream (env : Env) (stream_id : String) (stream_type : Nat) (wait : Bool) :
    List Call × Except PyErr String :=
  match env.deployStreamResult stream_id stream_type with
  | .error e => ([.deployStream stream_id stream_type], .error (.underlying e))
  | .ok deploy_tx_hash =>
    let t := waitTail env deploy_tx_hash wait
    (.deployStream stream_id stream_type :: t.1, t.2)

/-- `TNClient.stream_exists`: `None` data provider is coerced to `""`
before the underlying call. -/
def stream_exists (env : Env) (stream_id : String) (data_provider : Option String) :
    List Call × Except PyErr Bool :=
  let dp := data_provider.getD ""
  match env.streamExistsResult stream_id dp with
  | .error e => ([.streamExists stream_id dp], .error (.underlying e))
  | .ok b => ([.streamExists stream_id dp], .ok b)

/-- `TNClient.init_stream`. -/
def init_stream (env : Env) (stream_id : String) (wait : Bool) :
    List Call × Except PyErr String :=
  match env.initStreamResult stream_id with
  | .error e => ([.initStream stream_id], .error (.underlying e))
  | .ok init_tx_hash =>
    let t := waitTail env init_tx_hash wait
    (.initStream stream_id :: t.1, t.2)

/-- `TNClient.insert_records`: the two list comprehensions
`[record['date'] for record in records]`, `[record['value'] for record in
records]` (each may raise `KeyError`), then one `InsertRecords` call with
the two parallel sequences. -/
def insert_records (env : Env) (stream_id : String) (records : List PyDict) (wait : Bool) :
    List Call × Except PyErr String :=
  match omap (fun r => pyGet r "date") records with
  | none => ([], .error (.keyError "date"))
  | some dates =>
    match omap (fun r => pyGet r "value") records with
    | none => ([], .error (.keyError "value"))
    | some values =>
      match env.insertRecordsResult stream_id dates values with
      | .error e => ([.insertRecords stream_id dates values], .error (.underlying e))
      | .ok insert_tx_hash =>
        let t := waitTail env insert_tx_hash wait
        (.insertRecords stream_id dates values :: t.1, t.2)

/-- `TNClient.get_records`: each `None` filter is coerced to `""`, one
underlying `GetRecords` call, and the returned map-like records are rebuilt
as dicts via `dict(record.items())`. -/
def get_records (env : Env) (stream_id : String)
    (data_provider date_from date_to frozen_at base_date : Option String) :
    List Call × Except PyErr (List (List (String × Scalar))) :=
  let dp := data_provider.getD ""
  let df := date_from.getD ""
  let dt := date_to.getD ""
  let fa := frozen_at.getD ""
  let bd := base_date.getD ""
  match env.getRecordsResult stream_id dp df dt fa bd with
  | .error e => ([.getRecords stream_id dp df dt fa bd], .error (.underlying e))
  | .ok goSliceOfMaps =>
    ([.getRecords stream_id dp df dt fa bd], .ok (goSliceOfMaps.map pyDict))

/-- `TNClient.execute_procedure`: transpose the argument matrix with
`zip(*args)`, type-dispatch every column (raising `ValueError` locally at
the first unsupported one, before any underlying call), then one
`ExecuteProcedure` call with the typed argument groups. -/
def execute_procedure (env : Env) (stream_id : String) (procedure : String)
    (args : List (List Scalar)) (wait : Bool) : List Call × Except PyErr String :=
  let transposed_args := pyZip args
  match classifyColumns transposed_args with
  | .error bad => ([], .error (.valueError bad))
  | .ok variadic_args =>
    match env.executeProcedureResult stream_id procedure variadic_args with
    | .error e =>
      ([.executeProcedure stream_id procedure variadic_args], .error (.underlying e))
    | .ok insert_tx_hash =>
      let t := waitTail env insert_tx_hash wait
      (.executeProcedure stream_id procedure variadic_args :: t.1, t.2)

/-- `TNClient.wait_for_tx`. -/
def wait_for_tx (env : Env) (tx_hash : String) : List Call × Except PyErr Unit :=
  match env.waitForTxResult tx_hash with
  | .error e => ([.waitForTx tx_hash], .error (.underlying e))
  | .ok _ => ([.waitForTx tx_hash], .ok ())

/-- Modelled from the spec: `truf_sdk.GenerateStreamId`, the external
native binding's name→ID derivation, is not part of this repository's
sources; per §6 it is "a pure name→ID hash function" and per §4.1 "a pure,
deterministic one-way function ... effectively a content-addressing hash
applied to the name".  Modelled as a concrete pure digest of the name's
bytes rendered in hex with an `st` prefix. -/
def GenerateStreamId (name : String) : String :=
  let digest := name.foldl (fun h c => (h * 131 + c.toNat) % 4294967296) 5381
  "st" ++ (Nat.toDigits 16 digest).asString

/-- `generate_stream_id` from `utils.py`: a module-level function needing
no client handle, forwarding to the native hash. -/
def generate_stream_id (name : String) : String :=
  GenerateStreamId name

/-- Recognizer for `WaitForTx` invocations in a call trace. -/
def isWaitCall : Call → Bool
  | .waitForTx _ => true
  | _ => false

/-- The minimum row length of a nonempty matrix (`0` for the empty one):
the number of tuples `zip(*args)` produces. -/
def minRowLen {α : Type} : List (List α) → Nat
  | [] => 0
  | r :: rs => rs.foldl (fun m row => min m row.length) r.length

/-! ## Helper lemmas -/

theorem omap_eq_none_iff {α β : Type} (f : α → Option β) (l : List α) :
    omap f l = none ↔ ∃ a ∈ l, f a = none := by
  induction l with
  | nil => simp [omap]
  | cons a as ih =>
    cases hfa : f a with
    | none => simp [omap, hfa]
    | some b => simp [omap, hfa, ih]

theorem omap_some {α β : Type} (f : α → Option β) :
    ∀ (l : List α) (l' : List β), omap f l = some l' →
      l'.length = l.length ∧ ∀ i : Nat, l'[i]? = (l[i]?).bind f := by
  intro l
  induction l with
  | nil =>
    intro l' h
    simp [omap] at h
    subst h
    simp
  | cons a as ih =>
    intro l' h
    cases hfa : f a with
    | none => simp [omap, hfa] at h
    | some b =>
      simp [omap, hfa] at h
      obtain ⟨bs, hbs, hl'⟩ := h
      obtain ⟨hlen, hget⟩ := ih bs hbs
      subst hl'
      refine ⟨by simp [hlen], ?_⟩
      intro i
      cases i with
      | zero => simp [hfa]
      | succ n => simpa using hget n

theorem omap_exists_of_forall {α β : Type} (f : α → Option β) (l : List α)
    (h : ∀ a ∈ l, (f a).isSome) : ∃ l', omap f l = some l' := by
  induction l with
  | nil => exact ⟨[], rfl⟩
  | cons a as ih =>
    have ha := h a (List.mem_cons_self a as)
    obtain ⟨b, hb⟩ := Option.isSome_iff_exists.mp ha
    obtain ⟨bs, hbs⟩ := ih (fun x hx => h x (List.mem_cons_of_mem a hx))
    exact ⟨b :: bs, by simp [omap, hb, hbs]⟩

theorem omap_map {α β γ : Type} (f : β → Option γ) (g : α → β) (l : List α) :
    omap f (l.map g) = omap (fun a => f (g a)) l := by
  induction l with
  | nil => rfl
  | cons a as ih => simp [omap, ih]

theorem omap_congr {α β : Type} (f g : α → Option β) (l : List α)
    (h : ∀ a ∈ l, f a = g a) : omap f l = omap g l := by
  induction l with
  | nil => rfl
  | cons a as ih =>
    simp [omap, h a (List.mem_cons_self a as),
      ih (fun x hx => h x (List.mem_cons_of_mem a hx))]

theorem nexts_eq_none_iff {α : Type} (rs : List (List α)) :
    nexts rs = none ↔ ∃ r ∈ rs, r = [] := by
  induction rs with
  | nil => simp [nexts]
  | cons r rest ih =>
    cases r with
    | nil => simp [nexts]
    | cons a as =>
      cases hn : nexts rest with
      | none => simpa [nexts, hn] using ih.mp hn
      | some p =>
        have hne : ¬∃ r ∈ rest, r = [] := by
          intro hex
          rw [← ih] at hex
          rw [hex] at hn
          exact Option.noConfusion hn
        simp [nexts, hn]
        intro hmem
        exact hne ⟨[], hmem, rfl⟩

theorem nexts_some_heads {α : Type} :
    ∀ (rs : List (List α)) (hs : List α) (ts : List (List α)),
      nexts rs = some (hs, ts) → omap (fun r => r[0]?) rs = some hs := by
  intro rs
  induction rs with
  | nil =>
    intro hs ts h
    simp [nexts] at h
    simp [omap, h.1]
  | cons r rest ih =>
    intro hs ts h
    cases r with
    | nil => simp [nexts] at h
    | cons a as =>
      cases hn : nexts rest with
      | none => simp [nexts, hn] at h
      | some p =>
        obtain ⟨hs', ts'⟩ := p
        simp [nexts, hn] at h
        obtain ⟨h1, h2⟩ := h
        simp [omap, ih hs' ts' hn, ← h1]

theorem nexts_some_tails {α : Type} :
    ∀ (rs : List (List α)) (hs : List α) (ts : List (List α)),
      nexts rs = some (hs, ts) →
      ∀ n : Nat, omap (fun r => r[n + 1]?) rs = omap (fun r => r[n]?) ts := by
  intro rs
  induction rs with
  | nil =>
    intro hs ts h n
    simp [nexts] at h
    simp [omap, h.2]
  | cons r rest ih =>
    intro hs ts h n
    cases r with
    | nil => simp [nexts] at h
    | cons a as =>
      cases hn : nexts rest with
      | none => simp [nexts, hn] at h
      | some p =>
        obtain ⟨hs', ts'⟩ := p
        simp [nexts, hn] at h
        obtain ⟨h1, h2⟩ := h
        subst h2
        simp [omap, ih hs' ts' hn n]

/-- The tuples of `zip(*(r :: rs))`, indexed: the `i`-th column exists iff
every row has an `i`-th element, and then collects exactly those. -/
theorem pyZipCore_getElem? {α : Type} :
    ∀ (r : List α) (rs : List (List α)) (i : Nat),
      (pyZipCore r rs)[i]? = omap (fun row => row[i]?) (r :: rs) := by
  intro r
  induction r with
  | nil =>
    intro rs i
    simp [pyZipCore, omap]
  | cons a as ih =>
    intro rs i
    cases hn : nexts rs with
    | none =>
      obtain ⟨row, hrow, hempty⟩ := (nexts_eq_none_iff rs).mp hn
      have hnone : omap (fun row => row[i]?) rs = none :=
        (omap_eq_none_iff _ rs).mpr ⟨row, hrow, by simp [hempty]⟩
      simp only [pyZipCore, hn, omap, hnone]
      cases (a :: as)[i]? <;> simp
    | some p =>
      obtain ⟨hs, ts⟩ := p
      cases i with
      | zero =>
        simp only [pyZipCore, hn, omap, nexts_some_heads rs hs ts hn]
        simp
      | succ n =>
        have htail := nexts_some_tails rs hs ts hn n
        simp only [pyZipCore, hn, List.getElem?_cons_succ, ih ts n, omap,
          List.getElem?_cons_succ, htail]

theorem pyZip_getElem? {α : Type} (r : List α) (rs : List (List α)) (i : Nat) :
    (pyZip (r :: rs))[i]? = omap (fun row => row[i]?) (r :: rs) :=
  pyZipCore_getElem? r rs i

theorem foldl_min_lt_iff {α : Type} :
    ∀ (rs : List (List α)) (a i : Nat),
      i < rs.foldl (fun m row => min m row.length) a ↔
        i < a ∧ ∀ row ∈ rs, i < row.length := by
  intro rs
  induction rs with
  | nil => intro a i; simp
  | cons l t ih =>
    intro a i
    simp only [List.foldl_cons, ih, Nat.lt_min, List.mem_cons]
    constructor
    · rintro ⟨⟨h1, h2⟩, h3⟩
      refine ⟨h1, ?_⟩
      intro row hrow
      rcases hrow with h | h
      · exact h ▸ h2
      · exact h3 row h
    · rintro ⟨h1, h2⟩
      exact ⟨⟨h1, h2 l (Or.inl rfl)⟩, fun row hrow => h2 row (Or.inr hrow)⟩

theorem foldl_min_attained {α : Type} :
    ∀ (rs : List (List α)) (a : Nat),
      rs.foldl (fun m row => min m row.length) a = a ∨
        ∃ row ∈ rs, rs.foldl (fun m row => min m row.length) a = row.length := by
  intro rs
  induction rs with
  | nil => intro a; exact Or.inl rfl
  | cons l t ih =>
    intro a
    rcases ih (min a l.length) with h | ⟨row, hrow, he⟩
    · rcases Nat.le_total a l.length with hle | hle
      · left
        simpa [Nat.min_eq_left hle] using h
      · right
        exact ⟨l, List.mem_cons_self l t, by simpa [Nat.min_eq_right hle] using h⟩
    · right
      exact ⟨row, List.mem_cons_of_mem l hrow, he⟩

theorem lt_minRowLen_iff {α : Type} (r : List α) (rs : List (List α)) (i : Nat) :
    i < minRowLen (r :: rs) ↔ ∀ row ∈ r :: rs, i < row.length := by
  simp only [minRowLen, foldl_min_lt_iff, List.mem_cons]
  constructor
  · rintro ⟨h1, h2⟩ row hrow
    rcases hrow with h | h
    · exact h ▸ h1
    · exact h2 row h
  · intro h
    exact ⟨h r (Or.inl rfl), fun row hrow => h row (Or.inr hrow)⟩

theorem minRowLen_attained {α : Type} (r : List α) (rs : List (List α)) :
    ∃ row ∈ r :: rs, row.length = minRowLen (r :: rs) := by
  rcases foldl_min_attained rs r.length with h | ⟨row, hrow, he⟩
  · exact ⟨r, List.mem_cons_self r rs, by simp [minRowLen, h]⟩
  · exact ⟨row, List.mem_cons_of_mem r hrow, by simp [minRowLen, he]⟩

theorem minRowLen_le {α : Type} (r : List α) (rs : List (List α)) :
    ∀ row ∈ r :: rs, minRowLen (r :: rs) ≤ row.length := by
  intro row hrow
  by_contra hc
  push_neg at hc
  exact absurd ((lt_minRowLen_iff r rs row.length).mp hc row hrow) (lt_irrefl _)

/-- `zip(*args)` produces exactly `minRowLen args` tuples. -/
theorem pyZip_length {α : Type} (r : List α) (rs : List (List α)) :
    (pyZip (r :: rs)).length = minRowLen (r :: rs) := by
  have hiff : ∀ i : Nat, i < (pyZip (r :: rs)).length ↔ i < minRowLen (r :: rs) := by
    intro i
    rw [lt_minRowLen_iff]
    constructor
    · intro hi row hrow
      by_contra hc
      push_neg at hc
      have hnone : (pyZip (r :: rs))[i]? = none := by
        rw [pyZip_getElem?]
        exact (omap_eq_none_iff _ _).mpr
          ⟨row, hrow, List.getElem?_eq_none_iff.mpr hc⟩
      rw [List.getElem?_eq_none_iff] at hnone
      omega
    · intro hall
      by_contra hc
      push_neg at hc
      have hnone : (pyZip (r :: rs))[i]? = none :=
        List.getElem?_eq_none_iff.mpr hc
      rw [pyZip_getElem?, omap_eq_none_iff] at hnone
      obtain ⟨row, hrow, hnone⟩ := hnone
      rw [List.getElem?_eq_none_iff] at hnone
      exact absurd (hall row hrow) (by omega)
  have h1 := hiff (pyZip (r :: rs)).length
  have h2 := hiff (minRowLen (r :: rs))
  omega

/-- Truncation: `zip(*args)` only reads the first `minRowLen args`
elements of every row — entries beyond the shortest row are dropped. -/
theorem pyZip_take_min {α : Type} (r : List α) (rs : List (List α)) :
    pyZip (r :: rs) =
      pyZip ((r :: rs).map (List.take (minRowLen (r :: rs)))) := by
  apply List.ext_getElem?
  intro i
  have hmap : (r :: rs).map (List.take (minRowLen (r :: rs)))
      = List.take (minRowLen (r :: rs)) r :: rs.map (List.take (minRowLen (r :: rs))) := rfl
  rw [pyZip_getElem?, hmap, pyZip_getElem?, ← hmap, omap_map]
  by_cases hi : i < minRowLen (r :: rs)
  · exact (omap_congr _ _ _ (fun row _ => (List.getElem?_take_of_lt hi).symm))
  · push_neg at hi
    obtain ⟨row, hrow, hlen⟩ := minRowLen_attained r rs
    rw [(omap_eq_none_iff _ _).mpr
      ⟨row, hrow, List.getElem?_eq_none_iff.mpr (by omega)⟩]
    rw [(omap_eq_none_iff _ _).mpr
      ⟨row, hrow, List.getElem?_eq_none_iff.mpr (by simp [List.length_take]; omega)⟩]

theorem classifyColumns_length :
    ∀ (cols : List (List Scalar)) (ts : List TypedArgs),
      classifyColumns cols = .ok ts → ts.length = cols.length := by
  intro cols
  induction cols with
  | nil =>
    intro ts h
    simp [classifyColumns] at h
    simp [← h]
  | cons c cs ih =>
    intro ts h
    cases hc : classifyColumn c with
    | none => simp [classifyColumns, hc] at h
    | some t =>
      cases hcs : classifyColumns cs with
      | error b => simp [classifyColumns, hc, hcs] at h
      | ok ts' =>
        simp [classifyColumns, hc, hcs] at h
        simp [← h, ih ts' hcs]

theorem classifyColumns_error_of_mem :
    ∀ (cols : List (List Scalar)) (c : List Scalar), c ∈ cols → classifyColumn c = none →
      ∃ b, classifyColumns cols = .error b ∧ b ∈ cols ∧ classifyColumn b = none := by
  intro cols
  induction cols with
  | nil => intro c hc; simp at hc
  | cons d cs ih =>
    intro c hc hn
    cases hd : classifyColumn d with
    | none =>
      exact ⟨d, by simp [classifyColumns, hd], List.mem_cons_self d cs, hd⟩
    | some t =>
      have hcs : c ∈ cs := by
        rcases List.mem_cons.mp hc with h | h
        · rw [h] at hn; rw [hn] at hd; exact Option.noConfusion hd
        · exact h
      obtain ⟨b, hb, hbmem, hbn⟩ := ih c hcs hn
      exact ⟨b, by simp [classifyColumns, hd, hb], List.mem_cons_of_mem d hbmem, hbn⟩

theorem isStr_false_of_isFloat {y : Scalar} (h : y.isFloat) : y.isStr = false := by
  cases y <;> simp_all [Scalar.isStr, Scalar.isFloat]

theorem isStr_false_of_isInt {y : Scalar} (h : y.isInt) : y.isStr = false := by
  cases y <;> simp_all [Scalar.isStr, Scalar.isInt]

theorem isFloat_false_of_isStr {x : Scalar} (h : x.isStr) : x.isFloat = false := by
  cases x <;> simp_all [Scalar.isStr, Scalar.isFloat]

theorem isFloat_false_of_isInt {x : Scalar} (h : x.isInt) : x.isFloat = false := by
  cases x <;> simp_all [Scalar.isFloat, Scalar.isInt]

/-- A column holding both a string and a float passes neither `isinstance`
scan: the type dispatch rejects it. -/
theorem classifyColumn_none_of_mixed {col : List Scalar} {x y : Scalar}
    (hx : x ∈ col) (hy : y ∈ col) (hxs : x.isStr) (hyf : y.isFloat) :
    classifyColumn col = none := by
  have h1 : col.all Scalar.isStr = false :=
    List.all_eq_false.mpr ⟨y, hy, by simp [isStr_false_of_isFloat hyf]⟩
  have h2 : col.all Scalar.isFloat = false :=
    List.all_eq_false.mpr ⟨x, hx, by simp [isFloat_false_of_isStr hxs]⟩
  simp [classifyColumn, h1, h2]

/-- A column holding an integer passes neither `isinstance` scan: in Python
an `int` is neither a `str` nor a `float`, so the dispatch rejects it. -/
theorem classifyColumn_none_of_int_mem {col : List Scalar} {y : Scalar}
    (hy : y ∈ col) (hyi : y.isInt) : classifyColumn col = none := by
  have h1 : col.all Scalar.isStr = false :=
    List.all_eq_false.mpr ⟨y, hy, by simp [isStr_false_of_isInt hyi]⟩
  have h2 : col.all Scalar.isFloat = false :=
    List.all_eq_false.mpr ⟨y, hy, by simp [isFloat_false_of_isInt hyi]⟩
  simp [classifyColumn, h1, h2]

theorem dict_foldl_eq :
    ∀ (items : List (String × Scalar)) (d : List (String × Scalar)),
      (items.map Prod.fst).Nodup → (∀ p ∈ items, ∀ q ∈ d, p.1 ≠ q.1) →
      items.foldl (fun d p => dictInsert d p.1 p.2) d = d ++ items := by
  intro items
  induction items with
  | nil => intro d _ _; simp
  | cons p rest ih =>
    intro d hnodup hdisj
    have hany : d.any (fun q => q.1 = p.1) = false := by
      rw [List.any_eq_false]
      intro q hq
      simp [Ne.symm (hdisj p (List.mem_cons_self p rest) q hq)]
    have hins : dictInsert d p.1 p.2 = d ++ [p] := by
      simp [dictInsert, hany]
    rw [List.foldl_cons, hins]
    have hnodup' : (rest.map Prod.fst).Nodup := (List.nodup_cons.mp (by simpa using hnodup)).2
    have hhead : p.1 ∉ rest.map Prod.fst := (List.nodup_cons.mp (by simpa using hnodup)).1
    have hdisj' : ∀ p' ∈ rest, ∀ q ∈ d ++ [p], p'.1 ≠ q.1 := by
      intro p' hp' q hq
      rcases List.mem_append.mp hq with h | h
      · exact hdisj p' (List.mem_cons_of_mem p hp') q h
      · have : q = p := by simpa using h
        rw [this]
        intro hcontra
        exact hhead (hcontra ▸ List.mem_map_of_mem Prod.fst hp')
    rw [ih (d ++ [p]) hnodup' hdisj']
    simp

/-- `dict(items)` over distinct keys reproduces the items exactly, in
order. -/
theorem pyDict_of_nodupkeys (l : List (String × Scalar))
    (h : (l.map Prod.fst).Nodup) : pyDict l = l := by
  have := dict_foldl_eq l [] h (by simp)
  simpa [pyDict] using this

theorem waitTail_fst (env : Env) (tx : String) (w : Bool) :
    (waitTail env tx w).1 = if w then [Call.waitForTx tx] else [] := by
  cases w with
  | false => rfl
  | true => cases h : env.waitForTxResult tx <;> simp [waitTail, h]

theorem waitTail_snd_ok (env : Env) (tx : String) (w : Bool)
    (h : env.waitForTxResult tx = .ok ()) : (waitTail env tx w).2 = .ok tx := by
  cases w with
  | false => rfl
  | true => simp [waitTail, h]

@[simp] theorem isWaitCall_waitForTx (tx : String) :
    isWaitCall (.waitForTx tx) = true := rfl

@[simp] theorem isWaitCall_deployStream (s : String) (t : Nat) :
    isWaitCall (.deployStream s t) = false := rfl

@[simp] theorem isWaitCall_initStream (s : String) :
    isWaitCall (.initStream s) = false := rfl

@[simp] theorem isWaitCall_insertRecords (s : String) (ds vs : List Scalar) :
    isWaitCall (.insertRecords s ds vs) = false := rfl

@[simp] theorem isWaitCall_executeProcedure (s p : String) (a : List TypedArgs) :
    isWaitCall (.executeProcedure s p a) = false := rfl

/-! ## Concrete test fixtures -/

/-- A concrete healthy native client: every underlying call succeeds, with
distinguishable transaction hashes per operation. -/
def env0 : Env :=
  ⟨fun _ _ => .ok "txd",
   fun _ => .ok (),
   fun _ _ => .ok true,
   fun _ => .ok "txi",
   fun _ _ _ => .ok "txr",
   fun _ _ _ _ _ _ =>
     .ok [[("date", Scalar.str "2024-01-01"), ("value", Scalar.float 1)]],
   fun _ _ _ => .ok "txe"⟩

/-- A concrete failing native client: every underlying call raises the
exception `"boom"`. -/
def envE : Env :=
  ⟨fun _ _ => .error "boom",
   fun _ => .error "boom",
   fun _ _ => .error "boom",
   fun _ => .error "boom",
   fun _ _ _ => .error "boom",
   fun _ _ _ _ _ _ => .error "boom",
   fun _ _ _ => .error "boom"⟩

/-- Two well-formed records, as in the spec's §8 example (whole-number
values so that the kernel can evaluate them). -/
def recs1 : List PyDict :=
  [[("date", Scalar.str "2024-01-01"), ("value", Scalar.float 1)],
   [("date", Scalar.str "2024-01-02"), ("value", Scalar.float 2)]]

/-- An argument matrix whose single transposed column mixes a string and a
float. -/
def argsMixed : List (List Scalar) := [[Scalar.str "a"], [Scalar.float 1]]

/-- An argument matrix with two all-string columns and ragged rows (first
row longer). -/
def argsRagged : List (List Scalar) :=
  [[Scalar.str "a", Scalar.str "b", Scalar.str "c"],
   [Scalar.str "x", Scalar.str "y"]]

/-- An argument matrix whose single transposed column is all floats. -/
def argsFloats : List (List Scalar) := [[Scalar.float 1], [Scalar.float 2]]

/-! ## Claims -/

/-- C1: for every argument matrix in which some transposed column contains
both a string and a float, `execute_procedure` raises a local type error
(`ValueError`) and its underlying-call trace is empty: neither
`ExecuteProcedure` nor `WaitForTx` (nor any other native call) is invoked,
so no network contact is made. -/
theorem C1_mixed_column_local_error (env : Env) (sid proc : String)
    (args : List (List Scalar)) (w : Bool)
    (h : ∃ col ∈ pyZip args, (∃ x ∈ col, x.isStr) ∧ (∃ y ∈ col, y.isFloat)) :
    ∃ bad, execute_procedure env sid proc args w = ([], .error (.valueError bad)) := by
  obtain ⟨col, hcol, ⟨x, hx, hxs⟩, ⟨y, hy, hyf⟩⟩ := h
  obtain ⟨b, hb, _, _⟩ := classifyColumns_error_of_mem (pyZip args) col hcol
    (classifyColumn_none_of_mixed hx hy hxs hyf)
  exact ⟨b, by simp [execute_procedure, hb]⟩

/-- C1 witness: a concrete mixed column, under the healthy client. -/
theorem C1_witness :
    (∃ col ∈ pyZip argsMixed, (∃ x ∈ col, x.isStr) ∧ (∃ y ∈ col, y.isFloat))
    ∧ ∃ bad, execute_procedure env0 "s" "proc" argsMixed true
        = ([], .error (.valueError bad)) :=
  ⟨by decide, C1_mixed_column_local_error env0 "s" "proc" argsMixed true (by decide)⟩

/-- C2 counterexample: the claim says an all-integer column is tolerated as
float-compatible and forwarded; on the code, `isinstance(1, float)` is
false, so the column `[1]` falls through both `isinstance` scans and
raises `ValueError` locally — nothing is forwarded. -/
theorem C2_counterexample :
    execute_procedure env0 "s" "proc" [[Scalar.int 1]] true
      = ([], .error (.valueError [Scalar.int 1])) := rfl

/-- C2 (amended): an argument column consisting entirely of integers is
NOT tolerated: in Python an `int` is neither a `str` nor a `float`, so any
nonempty all-integer column makes `execute_procedure` raise a local
`ValueError` before any underlying call. -/
theorem C2_amended_int_column_rejected (env : Env) (sid proc : String)
    (args : List (List Scalar)) (w : Bool)
    (h : ∃ col ∈ pyZip args, col ≠ [] ∧ col.all Scalar.isInt) :
    ∃ bad, execute_procedure env sid proc args w = ([], .error (.valueError bad)) := by
  obtain ⟨col, hcol, hne, hall⟩ := h
  obtain ⟨c, cs, rfl⟩ := List.exists_cons_of_ne_nil hne
  have hc : c.isInt := by
    have := List.all_eq_true.mp hall c (List.mem_cons_self c cs)
    simpa using this
  obtain ⟨b, hb, _, _⟩ := classifyColumns_error_of_mem (pyZip args) (c :: cs) hcol
    (classifyColumn_none_of_int_mem (List.mem_cons_self c cs) hc)
  exact ⟨b, by simp [execute_procedure, hb]⟩

/-- C2 witness for the amended claim: a concrete all-integer column. -/
theorem C2_amended_witness :
    (∃ col ∈ pyZip [[Scalar.int 1], [Scalar.int 2]],
        col ≠ [] ∧ col.all Scalar.isInt)
    ∧ ∃ bad, execute_procedure env0 "s" "proc" [[Scalar.int 1], [Scalar.int 2]] true
        = ([], .error (.valueError bad)) :=
  ⟨by decide,
   C2_amended_int_column_rejected env0 "s" "proc" [[Scalar.int 1], [Scalar.int 2]]
     true (by decide)⟩

/-- C3: for `deploy_stream`, `init_stream` and `insert_records`, whenever
the underlying mutating call returns a hash `tx`, the trace contains
`WaitForTx` exactly once and with exactly `tx` when `wait = true`, and not
at all when `wait = false`. -/
theorem C3_wait_flag_semantics (env : Env) (sid : String) (st : Nat)
    (records : List PyDict) (w : Bool) :
    (∀ tx, env.deployStreamResult sid st = .ok tx →
      (deploy_stream env sid st w).1.filter isWaitCall
        = if w then [Call.waitForTx tx] else [])
    ∧ (∀ tx, env.initStreamResult sid = .ok tx →
      (init_stream env sid w).1.filter isWaitCall
        = if w then [Call.waitForTx tx] else [])
    ∧ (∀ ds vs tx, omap (fun r => pyGet r "date") records = some ds →
      omap (fun r => pyGet r "value") records = some vs →
      env.insertRecordsResult sid ds vs = .ok tx →
      (insert_records env sid records w).1.filter isWaitCall
        = if w then [Call.waitForTx tx] else []) := by
  refine ⟨?_, ?_, ?_⟩
  · intro tx htx
    simp only [deploy_stream, htx]
    cases w <;> simp [waitTail_fst]
  · intro tx htx
    simp only [init_stream, htx]
    cases w <;> simp [waitTail_fst]
  · intro ds vs tx hds hvs htx
    simp only [insert_records, hds, hvs, htx]
    cases w <;> simp [waitTail_fst]

/-- C3 witness: under the healthy client, `wait = true` produces exactly
one `WaitForTx` with the returned hash, `wait = false` none. -/
theorem C3_witness :
    (deploy_stream env0 "s" 0 true).1.filter isWaitCall = [Call.waitForTx "txd"]
    ∧ (deploy_stream env0 "s" 0 false).1.filter isWaitCall = []
    ∧ (init_stream env0 "s" true).1.filter isWaitCall = [Call.waitForTx "txi"]
    ∧ (insert_records env0 "s" recs1 true).1.filter isWaitCall
        = [Call.waitForTx "txr"]
    ∧ (insert_records env0 "s" recs1 false).1.filter isWaitCall = [] :=
  ⟨(C3_wait_flag_semantics env0 "s" 0 recs1 true).1 "txd" rfl,
   (C3_wait_flag_semantics env0 "s" 0 recs1 false).1 "txd" rfl,
   (C3_wait_flag_semantics env0 "s" 0 recs1 true).2.1 "txi" rfl,
   (C3_wait_flag_semantics env0 "s" 0 recs1 true).2.2
     [Scalar.str "2024-01-01", Scalar.str "2024-01-02"]
     [Scalar.float 1, Scalar.float 2] "txr" rfl rfl rfl,
   (C3_wait_flag_semantics env0 "s" 0 recs1 false).2.2
     [Scalar.str "2024-01-01", Scalar.str "2024-01-02"]
     [Scalar.float 1, Scalar.float 2] "txr" rfl rfl rfl⟩

/-- C4: when every record has a `date` and a `value` key, `insert_records`
invokes the underlying `InsertRecords` (first call of its trace) with two
parallel sequences of the same length as the record list, whose `i`-th
elements are the `date` and the `value` of the `i`-th record. -/
theorem C4_parallel_sequences (env : Env) (sid : String)
    (records : List PyDict) (w : Bool)
    (h : ∀ r ∈ records, (pyGet r "date").isSome ∧ (pyGet r "value").isSome) :
    ∃ dates values rest res,
      insert_records env sid records w
        = (Call.insertRecords sid dates values :: rest, res)
      ∧ dates.length = records.length
      ∧ values.length = records.length
      ∧ (∀ i : Nat, dates[i]? = (records[i]?).bind (fun r => pyGet r "date"))
      ∧ (∀ i : Nat, values[i]? = (records[i]?).bind (fun r => pyGet r "value")) := by
  obtain ⟨ds, hds⟩ := omap_exists_of_forall _ records (fun r hr => (h r hr).1)
  obtain ⟨vs, hvs⟩ := omap_exists_of_forall _ records (fun r hr => (h r hr).2)
  obtain ⟨hdl, hdg⟩ := omap_some _ records ds hds
  obtain ⟨hvl, hvg⟩ := omap_some _ records vs hvs
  cases henv : env.insertRecordsResult sid ds vs with
  | error e =>
    exact ⟨ds, vs, [], .error (.underlying e),
      by simp [insert_records, hds, hvs, henv], hdl, hvl, hdg, hvg⟩
  | ok tx =>
    exact ⟨ds, vs, (waitTail env tx w).1, (waitTail env tx w).2,
      by simp [insert_records, hds, hvs, henv], hdl, hvl, hdg, hvg⟩

/-- C4 witness: the spec's two-record example produces the two parallel
sequences in record order. -/
theorem C4_witness :
    (∀ r ∈ recs1, (pyGet r "date").isSome ∧ (pyGet r "value").isSome)
    ∧ ∃ dates values rest res,
        insert_records env0 "s" recs1 true
          = (Call.insertRecords "s" dates values :: rest, res)
        ∧ dates.length = recs1.length
        ∧ values.length = recs1.length
        ∧ (∀ i : Nat, dates[i]? = (recs1[i]?).bind (fun r => pyGet r "date"))
        ∧ (∀ i : Nat, values[i]? = (recs1[i]?).bind (fun r => pyGet r "value")) :=
  ⟨by decide, C4_parallel_sequences env0 "s" recs1 true (by decide)⟩

/-- C5: for `get_records` (each of its five optional filters) and
`stream_exists` (its optional data provider), passing `None` is observably
identical to passing `""`: the whole observable behaviour (trace and
result) coincides, and the underlying call receives the empty-string
sentinel. -/
theorem C5_none_equals_empty_sentinel (env : Env) (sid : String)
    (dp df dt fa bd : Option String) :
    stream_exists env sid none = stream_exists env sid (some "")
    ∧ get_records env sid none df dt fa bd
        = get_records env sid (some "") df dt fa bd
    ∧ get_records env sid dp none dt fa bd
        = get_records env sid dp (some "") dt fa bd
    ∧ get_records env sid dp df none fa bd
        = get_records env sid dp df (some "") fa bd
    ∧ get_records env sid dp df dt none bd
        = get_records env sid dp df dt (some "") bd
    ∧ get_records env sid dp df dt fa none
        = get_records env sid dp df dt fa (some "")
    ∧ (stream_exists env sid none).1 = [Call.streamExists sid ""]
    ∧ (get_records env sid none none none none none).1
        = [Call.getRecords sid "" "" "" "" ""] := by
  refine ⟨rfl, rfl, rfl, rfl, rfl, rfl, ?_, ?_⟩
  · cases h : env.streamExistsResult sid "" <;> simp [stream_exists, h]
  · cases h : env.getRecordsResult sid "" "" "" "" "" <;> simp [get_records, h]

/-- C6: whenever the underlying `GetRecords` returns a sequence of
map-like records (distinct field names within each record), `get_records`
returns exactly that sequence rebuilt as dicts: same length, same order,
each dict holding exactly the key-value pairs of the corresponding
underlying record. -/
theorem C6_get_records_preserves_records (env : Env) (sid : String)
    (dp df dt fa bd : Option String) (recs : List (List (String × Scalar)))
    (hres : env.getRecordsResult sid (dp.getD "") (df.getD "") (dt.getD "")
        (fa.getD "") (bd.getD "") = .ok recs)
    (hkeys : ∀ r ∈ recs, (r.map Prod.fst).Nodup) :
    get_records env sid dp df dt fa bd
      = ([Call.getRecords sid (dp.getD "") (df.getD "") (dt.getD "")
          (fa.getD "") (bd.getD "")], .ok recs) := by
  have hmap : recs.map pyDict = recs := by
    have h := List.map_congr_left (fun r hr => pyDict_of_nodupkeys r (hkeys r hr))
    simpa using h
  simp [get_records, hres, hmap]

/-- C6 witness: the healthy client's one-record response survives the dict
reconstruction unchanged. -/
theorem C6_witness :
    (env0.getRecordsResult "s" "" "" "" "" ""
      = .ok [[("date", Scalar.str "2024-01-01"), ("value", Scalar.float 1)]])
    ∧ (∀ r ∈ [[("date", Scalar.str "2024-01-01"), ("value", Scalar.float 1)]],
        (List.map Prod.fst r).Nodup)
    ∧ get_records env0 "s" none none none none none
      = ([Call.getRecords "s" "" "" "" "" ""],
         .ok [[("date", Scalar.str "2024-01-01"), ("value", Scalar.float 1)]]) :=
  ⟨rfl, by decide,
   C6_get_records_preserves_records env0 "s" none none none none none
     [[("date", Scalar.str "2024-01-01"), ("value", Scalar.float 1)]] rfl (by decide)⟩

/-- C7: each mutating operation returns, on success, exactly the
transaction hash the underlying client produced for it — unchanged, and
independently of the `wait` flag (`w` is universally quantified and the
returned hash is the oracle's). -/
theorem C7_returns_underlying_hash (env : Env) (sid proc : String) (st : Nat)
    (records : List PyDict) (args : List (List Scalar)) (w : Bool)
    (txd txi txr txe : String) (ds vs : List Scalar) (va : List TypedArgs)
    (h1 : env.deployStreamResult sid st = .ok txd)
    (h2 : env.initStreamResult sid = .ok txi)
    (h3 : omap (fun r => pyGet r "date") records = some ds)
    (h4 : omap (fun r => pyGet r "value") records = some vs)
    (h5 : env.insertRecordsResult sid ds vs = .ok txr)
    (h6 : classifyColumns (pyZip args) = .ok va)
    (h7 : env.executeProcedureResult sid proc va = .ok txe)
    (w1 : env.waitForTxResult txd = .ok ())
    (w2 : env.waitForTxResult txi = .ok ())
    (w3 : env.waitForTxResult txr = .ok ())
    (w4 : env.waitForTxResult txe = .ok ()) :
    (deploy_stream env sid st w).2 = .ok txd
    ∧ (init_stream env sid w).2 = .ok txi
    ∧ (insert_records env sid records w).2 = .ok txr
    ∧ (execute_procedure env sid proc args w).2 = .ok txe := by
  refine ⟨?_, ?_, ?_, ?_⟩
  · simp [deploy_stream, h1, waitTail_snd_ok env txd w w1]
  · simp [init_stream, h2, waitTail_snd_ok env txi w w2]
  · simp [insert_records, h3, h4, h5, waitTail_snd_ok env txr w w3]
  · simp [execute_procedure, h6, h7, waitTail_snd_ok env txe w w4]

/-- C7 witness: concrete hashes returned unchanged with `wait` both true
and false. -/
theorem C7_witness :
    ((deploy_stream env0 "s" 0 true).2 = .ok "txd"
      ∧ (init_stream env0 "s" true).2 = .ok "txi"
      ∧ (insert_records env0 "s" recs1 true).2 = .ok "txr"
      ∧ (execute_procedure env0 "s" "proc" argsFloats true).2 = .ok "txe")
    ∧ ((deploy_stream env0 "s" 0 false).2 = .ok "txd"
      ∧ (init_stream env0 "s" false).2 = .ok "txi"
      ∧ (insert_records env0 "s" recs1 false).2 = .ok "txr"
      ∧ (execute_procedure env0 "s" "proc" argsFloats false).2 = .ok "txe") :=
  ⟨C7_returns_underlying_hash env0 "s" "proc" 0 recs1 argsFloats true
     "txd" "txi" "txr" "txe"
     [Scalar.str "2024-01-01", Scalar.str "2024-01-02"]
     [Scalar.float 1, Scalar.float 2] [.floats [1, 2]]
     rfl rfl rfl rfl rfl rfl rfl rfl rfl rfl rfl,
   C7_returns_underlying_hash env0 "s" "proc" 0 recs1 argsFloats false
     "txd" "txi" "txr" "txe"
     [Scalar.str "2024-01-01", Scalar.str "2024-01-02"]
     [Scalar.float 1, Scalar.float 2] [.floats [1, 2]]
     rfl rfl rfl rfl rfl rfl rfl rfl rfl rfl rfl⟩

/-- C8: whenever an underlying call raises, the operation's outcome is
that very exception, unmodified (the `PyErr.underlying` constructor merely
types the foreign exception; its payload `e` is carried verbatim), with no
retry and no recovery: the trace is exactly the calls made up to and
including the failing one, each once. -/
theorem C8_error_passthrough (env : Env) (sid proc txh : String) (st : Nat)
    (dp : Option String) (records : List PyDict) (args : List (List Scalar))
    (w : Bool) (e : String) :
    (env.deployStreamResult sid st = .error e →
      deploy_stream env sid st w
        = ([.deployStream sid st], .error (.underlying e)))
    ∧ (∀ tx, env.deployStreamResult sid st = .ok tx →
      env.waitForTxResult tx = .error e →
      deploy_stream env sid st true
        = ([.deployStream sid st, .waitForTx tx], .error (.underlying e)))
    ∧ (env.streamExistsResult sid (dp.getD "") = .error e →
      stream_exists env sid dp
        = ([.streamExists sid (dp.getD "")], .error (.underlying e)))
    ∧ (env.initStreamResult sid = .error e →
      init_stream env sid w = ([.initStream sid], .error (.underlying e)))
    ∧ (∀ ds vs, omap (fun r => pyGet r "date") records = some ds →
      omap (fun r => pyGet r "value") records = some vs →
      env.insertRecordsResult sid ds vs = .error e →
      insert_records env sid records w
        = ([.insertRecords sid ds vs], .error (.underlying e)))
    ∧ (env.getRecordsResult sid (dp.getD "") "" "" "" "" = .error e →
      get_records env sid dp none none none none
        = ([.getRecords sid (dp.getD "") "" "" "" ""], .error (.underlying e)))
    ∧ (∀ va, classifyColumns (pyZip args) = .ok va →
      env.executeProcedureResult sid proc va = .error e →
      execute_procedure env sid proc args w
        = ([.executeProcedure sid proc va], .error (.underlying e)))
    ∧ (env.waitForTxResult txh = .error e →
      wait_for_tx env txh = ([.waitForTx txh], .error (.underlying e))) := by
  refine ⟨?_, ?_, ?_, ?_, ?_, ?_, ?_, ?_⟩
  · intro he
    simp [deploy_stream, he]
  · intro tx htx hw
    simp [deploy_stream, htx, waitTail, hw]
  · intro he
    simp [stream_exists, he]
  · intro he
    simp [init_stream, he]
  · intro ds vs hds hvs he
    simp [insert_records, hds, hvs, he]
  · intro he
    simp [get_records, he]
  · intro va hva he
    simp [execute_procedure, hva, he]
  · intro he
    simp [wait_for_tx, he]

/-- C8 witness: under the all-failing client, every operation surfaces the
exception `"boom"` verbatim after exactly one underlying call. -/
theorem C8_witness :
    deploy_stream envE "s" 0 true
      = ([Call.deployStream "s" 0], .error (.underlying "boom"))
    ∧ stream_exists envE "s" none
      = ([Call.streamExists "s" ""], .error (.underlying "boom"))
    ∧ init_stream envE "s" true
      = ([Call.initStream "s"], .error (.underlying "boom"))
    ∧ get_records envE "s" none none none none none
      = ([Call.getRecords "s" "" "" "" "" ""], .error (.underlying "boom"))
    ∧ wait_for_tx envE "h"
      = ([Call.waitForTx "h"], .error (.underlying "boom")) := by
  have h := C8_error_passthrough envE "s" "proc" "h" 0 none [] [] true "boom"
  exact ⟨h.1 rfl, h.2.2.1 rfl, h.2.2.2.1 rfl, h.2.2.2.2.2.1 rfl,
    h.2.2.2.2.2.2.2 rfl⟩

/-- C9: `generate_stream_id` is a pure, deterministic function of the name
alone — its embedding takes no client handle, environment or other state,
so equal names yield equal identifiers. -/
theorem C9_generate_stream_id_deterministic (n1 n2 : String) (h : n1 = n2) :
    generate_stream_id n1 = generate_stream_id n2 := by
  rw [h]

/-- C9 witness at a concrete name. -/
theorem C9_witness : generate_stream_id "gold" = generate_stream_id "gold" :=
  C9_generate_stream_id_deterministic "gold" "gold" rfl

/-- C10: a nonempty ragged argument matrix is not a shape error:
`zip(*args)` yields exactly `minRowLen args` columns (`minRowLen` being
genuinely the minimum: a lower bound attained by some row), every row is
effectively truncated to that length (entries beyond it are dropped), and
when the columns type-check the underlying call receives exactly that many
argument groups. -/
theorem C10_ragged_matrix_truncates (env : Env) (sid proc : String) (w : Bool)
    (args : List (List Scalar)) (h : args ≠ []) :
    (pyZip args).length = minRowLen args
    ∧ (∀ row ∈ args, minRowLen args ≤ row.length)
    ∧ (∃ row ∈ args, row.length = minRowLen args)
    ∧ pyZip args = pyZip (args.map (List.take (minRowLen args)))
    ∧ (∀ va, classifyColumns (pyZip args) = .ok va →
        va.length = minRowLen args
        ∧ ∃ rest res, execute_procedure env sid proc args w
            = (Call.executeProcedure sid proc va :: rest, res)) := by
  obtain ⟨r, rs, rfl⟩ := List.exists_cons_of_ne_nil h
  refine ⟨pyZip_length r rs, minRowLen_le r rs, minRowLen_attained r rs,
    pyZip_take_min r rs, ?_⟩
  intro va hva
  refine ⟨by rw [classifyColumns_length (pyZip (r :: rs)) va hva, pyZip_length r rs], ?_⟩
  cases henv : env.executeProcedureResult sid proc va with
  | error e =>
    exact ⟨[], .error (.underlying e), by simp [execute_procedure, hva, henv]⟩
  | ok tx =>
    exact ⟨(waitTail env tx w).1, (waitTail env tx w).2,
      by simp [execute_procedure, hva, henv]⟩

/-- C10 witness: a concrete ragged matrix (rows of length 3 and 2) is
accepted and truncated to two columns. -/
theorem C10_witness :
    ((pyZip argsRagged).length = minRowLen argsRagged
    ∧ (∀ row ∈ argsRagged, minRowLen argsRagged ≤ row.length)
    ∧ (∃ row ∈ argsRagged, row.length = minRowLen argsRagged)
    ∧ pyZip argsRagged = pyZip (argsRagged.map (List.take (minRowLen argsRagged)))
    ∧ (∀ va, classifyColumns (pyZip argsRagged) = .ok va →
        va.length = minRowLen argsRagged
        ∧ ∃ rest res, execute_procedure env0 "s" "proc" argsRagged true
            = (Call.executeProcedure "s" "proc" va :: rest, res))) :=
  C10_ragged_matrix_truncates env0 "s" "proc" true argsRagged (by decide)

end TNPy
